import Mathlib

/-!
Verification of the Event-Based-Image-Retrieval retrieval core.

This file shallowly embeds the parts of the repository that the checked
properties are about:

* `rrf_rerank.py` — the standalone RRF reranker (normal and adaptive modes);
* `search_pipeline.py` — the view-level and family-level aggregators, the
  sigmoid rank-aware booster, the legacy collection configuration, the
  no-article collection selection, and the stage-2 CSV writer;
* `entity_search_system.py` — the entity-weighted article search.

Rational arithmetic is made semireducible so that concrete runs of the
embedded functions can be checked by `decide` (kernel reduction; no change
to what is provable).

Scores are modelled as rationals (`ℚ`); the Python dicts used as score
accumulators are modelled as association lists that preserve first-insertion
order, matching the insertion-ordered iteration of Python 3.7+ dicts; Python's
stable `sorted` is modelled by the stable insertion sort
`List.insertionSort`.  External RPC surfaces (the vector store and the
inverted index) are abstracted as function parameters or as an explicit
outcome datatype, exactly at the boundaries the code calls them.
-/

set_option allowUnsafeReducibility true in
attribute [semireducible] Rat.add Rat.mul Rat.inv Rat.div Rat.sub Rat.neg Rat.ofScientific

/-! ### String helpers

Python string operations, modelled over the character list of a `String`.
`pyStrip` is `str.strip()` (whitespace removed from both ends) and
`strHasPrefix p s` is `s.startswith(p)`. -/

/-- `s.strip()` of Python: drop whitespace from both ends. -/
def pyStrip (s : String) : String :=
  ⟨((s.data.dropWhile Char.isWhitespace).reverse.dropWhile Char.isWhitespace).reverse⟩

/-- `s.startswith(p)` of Python. -/
def strHasPrefix (p s : String) : Bool :=
  p.data.isPrefixOf s.data

/-- Lexicographic `≤` on strings, as Python compares them when sorting ids. -/
def strLeb (a b : String) : Bool :=
  lexLe a.data b.data
where
  lexLe : List Char → List Char → Bool
  | [], _ => true
  | _ :: _, [] => false
  | c :: cs, d :: ds => if c = d then lexLe cs ds else decide (c < d)

/-- Ascending stable insertion used to model Python's `sorted` on ids. -/
def insertAsc (x : String) : List String → List String
  | [] => [x]
  | y :: ys => if strLeb x y then x :: y :: ys else y :: insertAsc x ys

/-- Python's `sorted` on a list of ids (stable, ascending). -/
def sortStrAsc : List String → List String
  | [] => []
  | x :: xs => insertAsc x (sortStrAsc xs)

/-- First-occurrence deduplication with an explicit seen set, as the
pipeline's `unique_candidates` loop does. -/
def dedupFirstAux (seen : List String) : List String → List String
  | [] => []
  | x :: xs => if seen.contains x then dedupFirstAux seen xs
               else x :: dedupFirstAux (x :: seen) xs

/-- Remove duplicates preserving the first occurrence of each element. -/
def dedupFirst (l : List String) : List String := dedupFirstAux [] l

/-! ### Score accumulation

`defaultdict(float)` accumulation into an insertion-ordered dict. -/

/-- Add `v` to the score of `key`, keeping the dict's insertion order:
an existing key keeps its position, a new key is appended. -/
def addScore : List (String × ℚ) → String → ℚ → List (String × ℚ)
  | [], key, v => [(key, v)]
  | (k₀, s) :: rest, key, v =>
    if k₀ = key then (k₀, s + v) :: rest else (k₀, s) :: addScore rest key v

/-- Run a list of `(key, increment)` contributions through the accumulator,
starting from the empty dict. -/
def accumScores (contribs : List (String × ℚ)) : List (String × ℚ) :=
  contribs.foldl (fun acc c => addScore acc c.1 c.2) []

/-- The accumulated score of `key` (0 when absent, as for `defaultdict`). -/
def lookupScore (acc : List (String × ℚ)) (key : String) : ℚ :=
  match acc.lookup key with
  | some v => v
  | none => 0

/-- Descending-by-score order on dict entries. -/
def scoreGe (a b : String × ℚ) : Prop := b.2 ≤ a.2

instance : DecidableRel scoreGe := fun a b => inferInstanceAs (Decidable (b.2 ≤ a.2))

instance : IsTotal (String × ℚ) scoreGe := ⟨fun a b => le_total b.2 a.2⟩

instance : IsTrans (String × ℚ) scoreGe := ⟨fun _ _ _ h h' => le_trans h' h⟩

/-- Python's stable `sorted(key=score, reverse=True)`. -/
def sortDescScores (l : List (String × ℚ)) : List (String × ℚ) :=
  l.insertionSort scoreGe

/-! ### `rrf_rerank.py` — data model -/

/-- One CSV cell: `none` models a pandas NaN. -/
abbrev Cell := Option String

/-- A cell is valid unless it is NaN, or strips to `"#"` or to the empty
string (`rrf_rerank.py` lines 124, 172, 277, 314). -/
def isValidCell : Cell → Bool
  | none => false
  | some s => !(pyStrip s = "#" || pyStrip s = "")

/-- The id a valid cell contributes (the raw, unstripped string, as the
code scores `article_id` itself); `none` for an invalid cell. -/
def cellContent? : Cell → Option String
  | none => none
  | some s => if isValidCell (some s) then some s else none

/-- A loaded submission CSV: rows of `query_id` and the `article_id_*` /
`image_id_*` cells in column order. -/
structure SubmissionFile where
  rows : List (String × List Cell)

/-- `df[df['query_id'] == q].iloc[0]`: the first row for `q`, if any. -/
def findRow (f : SubmissionFile) (q : String) : Option (List Cell) :=
  (f.rows.find? (fun r => r.1 == q)).map (·.2)

/-- Whether the file has a row for `q` with at least one valid cell
(normal mode's `has_valid_articles` check). -/
def hasValidArticles (f : SubmissionFile) (q : String) : Bool :=
  match findRow f q with
  | none => false
  | some cells => cells.any isValidCell

/-- Count of leading consecutive valid cells (adaptive mode's first pass,
which `break`s at the first invalid cell). -/
def leadingValidCount (cells : List Cell) : ℕ :=
  (cells.takeWhile isValidCell).length

/-- Adaptive mode's `valid_article_count` for file `f` and query `q`
(0 when the query is missing from the file). -/
def queryArticleCount (f : SubmissionFile) (q : String) : ℕ :=
  match findRow f q with
  | none => 0
  | some cells => leadingValidCount cells

/-- Number of valid cells in a list (used to count consumed entries). -/
def countValid (cells : List Cell) : ℕ :=
  cells.countP (fun c => (cellContent? c).isSome)

/-- `RRF(d) = 1/(k + rank)`, 0 at rank 0 (`rrf_score` in the source). -/
def rrf_score (rank : ℕ) (k : ℚ) : ℚ :=
  if rank = 0 then 0 else 1 / (k + rank)

/-- Normal mode's per-row contribution list: `(id, rank)` for every valid
cell, where `rank` is the 1-based column position; invalid cells are
skipped with `continue`, so ranks are not renumbered. -/
def normalContribAux (rank : ℕ) : List Cell → List (String × ℕ)
  | [] => []
  | c :: cs =>
    match cellContent? c with
    | some s => (s, rank) :: normalContribAux (rank + 1) cs
    | none => normalContribAux (rank + 1) cs

/-- Normal mode's contributions of one row, ranks starting at 1. -/
def normalContrib (cells : List Cell) : List (String × ℕ) :=
  normalContribAux 1 cells

/-- Adaptive mode's per-row contribution list: the loop `break`s once
`articles_used` non-sentinel entries have been consumed, while `rank`
still counts columns. -/
def adaptiveContribAux (cap : ℕ) : ℕ → ℕ → List Cell → List (String × ℕ)
  | _, _, [] => []
  | rank, used, c :: cs =>
    if cap ≤ used then []
    else
      match cellContent? c with
      | some s => (s, rank) :: adaptiveContribAux cap (rank + 1) (used + 1) cs
      | none => adaptiveContribAux cap (rank + 1) used cs

/-- Adaptive mode's contributions of one row under cap `cap`. -/
def adaptiveContrib (cap : ℕ) (cells : List Cell) : List (String × ℕ) :=
  adaptiveContribAux cap 1 0 cells

/-- All `(id, rrf contribution)` pairs of a query across files, normal mode. -/
def queryContribsNormal (files : List SubmissionFile) (k : ℚ) (q : String) :
    List (String × ℚ) :=
  files.flatMap (fun f =>
    (normalContrib ((findRow f q).getD [])).map (fun c => (c.1, rrf_score c.2 k)))

/-- The per-query `article_id_1..top_n` output cells: the i-th ranked id,
or `"#"` when fewer than `top_n` ids were ranked. -/
def fillRow (top_n : ℕ) (items : List String) : List String :=
  (List.range top_n).map (fun i => items.getD i "#")

/-- Normal ("anti-bias") mode, one query: all-sentinel when the query is
missing or empty in any file, otherwise accumulate RRF scores over all
files and rank descending. -/
def rrfRowFor (files : List SubmissionFile) (k : ℚ) (top_n : ℕ) (q : String) :
    List String :=
  if files.all (fun f => hasValidArticles f q) then
    fillRow top_n
      ((sortDescScores (accumScores (queryContribsNormal files k q))).map (·.1))
  else
    fillRow top_n []

/-- `sorted(list(set(all query ids)))` over the input files. -/
def allQueryIds (files : List SubmissionFile) : List String :=
  sortStrAsc ((files.flatMap (fun f => f.rows.map (·.1))).dedup)

/-- `perform_rrf_reranking`: the normal-mode output table. -/
def perform_rrf_reranking (files : List SubmissionFile) (k : ℚ) (top_n : ℕ) :
    List (String × List String) :=
  (allQueryIds files).map (fun q => (q, rrfRowFor files k top_n q))

/-- Adaptive mode's per-file leading counts for a query. -/
def adaptiveCounts (files : List SubmissionFile) (q : String) : List ℕ :=
  files.map (fun f => queryArticleCount f q)

/-- `dynamic_limit = min(min_count * 2, max(counts))`. -/
def adaptiveCap (files : List SubmissionFile) (q : String) : ℕ :=
  min (2 * ((adaptiveCounts files q).min?.getD 0))
    ((adaptiveCounts files q).max?.getD 0)

/-- All `(id, rrf contribution)` pairs of a query across files, adaptive mode. -/
def queryContribsAdaptive (files : List SubmissionFile) (k : ℚ) (q : String)
    (cap : ℕ) : List (String × ℚ) :=
  files.flatMap (fun f =>
    (adaptiveContrib cap ((findRow f q).getD [])).map
      (fun c => (c.1, rrf_score c.2 k)))

/-- Adaptive mode, one query: skipped (all-sentinel) when any file has a
zero leading count, otherwise capped RRF accumulation. -/
def adaptiveRowFor (files : List SubmissionFile) (k : ℚ) (top_n : ℕ)
    (q : String) : List String :=
  if (adaptiveCounts files q).all (fun c => decide (0 < c)) then
    fillRow top_n
      ((sortDescScores (accumScores
        (queryContribsAdaptive files k q (adaptiveCap files q)))).map (·.1))
  else
    fillRow top_n []

/-- `perform_rrf_reranking_adaptive`: the adaptive-mode output table. -/
def perform_rrf_reranking_adaptive (files : List SubmissionFile) (k : ℚ)
    (top_n : ℕ) : List (String × List String) :=
  (allQueryIds files).map (fun q => (q, adaptiveRowFor files k top_n q))

/-- A row is well-formed when all its sentinel cells are trailing
(the shape the pipeline's own writers produce). -/
def wellFormedRow (cells : List Cell) : Bool :=
  (cells.dropWhile isValidCell).all (fun c => !isValidCell c)

/-! Spec-side fused-score formulas (the sums the spec describes, written
positionally over the row). -/

/-- Spec formula, normal mode: the fused score of `id` is the sum over
files of `1/(k + rank)` at each column rank where `id` appears validly. -/
def fusedScoreNormal (files : List SubmissionFile) (k : ℚ) (q id : String) : ℚ :=
  (files.map (fun f =>
    let cells := (findRow f q).getD []
    ((List.range cells.length).map (fun i =>
      if cellContent? (cells.getD i none) = some id then 1 / (k + (i + 1 : ℕ))
      else 0)).sum)).sum

/-- Spec formula, adaptive mode: as `fusedScoreNormal` but a position
contributes only while fewer than `cap` valid cells precede it. -/
def fusedScoreAdaptive (files : List SubmissionFile) (k : ℚ) (q : String)
    (cap : ℕ) (id : String) : ℚ :=
  (files.map (fun f =>
    let cells := (findRow f q).getD []
    ((List.range cells.length).map (fun i =>
      if cellContent? (cells.getD i none) = some id ∧ countValid (cells.take i) < cap
      then 1 / (k + (i + 1 : ℕ)) else 0)).sum)).sum

/-! ### `search_pipeline.py` — data model and aggregators -/

/-- One hit returned by the vector store (payload `image_id` and the final
per-image score); rank is positional. -/
structure ImageResult where
  image_id : String
  score : ℚ
  deriving DecidableEq

/-- Per-view family configuration (`model_families` entries). -/
structure FamilyConfig where
  query_collections : List String
  search_collection : String
  family_weight : ℚ
  deriving DecidableEq

/-- `__init__`'s filter: families kept active iff `family_weight > 0`. -/
def activeFamilies (fams : List (String × FamilyConfig)) :
    List (String × FamilyConfig) :=
  fams.filter (fun f => decide (0 < f.2.family_weight))

/-- The weighted per-rank contributions of one view collection's result
list (`_aggregate_final_collections` inner loop, ranks from 1). -/
def rankContribs (w k : ℚ) (useVoting : Bool) : ℕ → List ImageResult →
    List (String × ℚ)
  | _, [] => []
  | rank, r :: rs =>
    (r.image_id, if useVoting then w else w / (k + rank)) ::
      rankContribs w k useVoting (rank + 1) rs

/-- `_aggregate_final_collections`: per query, fuse the active view
collections (weight `> 0`; others are skipped by `continue`) with RRF or
voting, sort by fused score descending, keep the top 50 image ids. -/
def aggregate_final_collections (active_weights : List (String × ℚ))
    (rrf_k : ℚ) (useVoting : Bool)
    (search_results : List (String × List (String × List ImageResult))) :
    List (String × List String) :=
  search_results.map (fun qr =>
    (qr.1,
     ((sortDescScores (accumScores (qr.2.flatMap (fun cr =>
        let w := (active_weights.lookup cr.1).getD 0
        if w ≤ 0 then [] else rankContribs w rrf_k useVoting 1 cr.2)))).map
        (·.1)).take 50))

/-- One family's aggregated output and weight (`family_results` entries). -/
structure FamilyResults where
  results : List (String × List String)
  weight : ℚ
  deriving DecidableEq

/-- `multi_model_rrf`'s inner loop: only ranks `≤ final_top_k` of a
family's list contribute, with RRF weight `w/(k_mm + rank)` or a voting
weight `w`. -/
def familyRankContribs (w k : ℚ) (useVoting : Bool) (top : ℕ) :
    ℕ → List String → List (String × ℚ)
  | _, [] => []
  | rank, img :: rest =>
    if rank ≤ top then
      (img, if useVoting then w else w / (k + rank)) ::
        familyRankContribs w k useVoting top (rank + 1) rest
    else
      familyRankContribs w k useVoting top (rank + 1) rest

/-- The set of query ids appearing in any family's results. -/
def allFamilyQueryIds (family_results : List (String × FamilyResults)) :
    List String :=
  (family_results.flatMap (fun fd => fd.2.results.map (·.1))).dedup

/-- `multi_model_rrf`: fuse the per-family ranked lists across families and
keep the top `final_top_k` images per query. -/
def multi_model_rrf (k_mm : ℚ) (family_results : List (String × FamilyResults))
    (final_top_k : ℕ) (useVoting : Bool) : List (String × List String) :=
  (allFamilyQueryIds family_results).map (fun q =>
    (q,
     ((sortDescScores (accumScores (family_results.flatMap (fun fd =>
        familyRankContribs fd.2.weight k_mm useVoting final_top_k 1
          ((fd.2.results.lookup q).getD []))))).map (·.1)).take final_top_k))

/-! ### `save_final_image_results` — the stage-2 ("track2") CSV -/

/-- The written header row: `query_id` then `image_id_1 .. image_id_10`
(`range(1, 11)` in the source). -/
def trackHeader : List String :=
  "query_id" :: (List.range 10).map (fun i => "image_id_" ++ toString (i + 1))

/-- One written data row: `query_id` then 50 cells (`range(50)`), the i-th
image id or `"#"` padding. -/
def trackRow (q : String) (images : List String) : List String :=
  q :: (List.range 50).map (fun i => images.getD i "#")

/-- `save_final_image_results`: the header then one row per query of
`final_results`, in ascending query-id order. -/
def save_final_image_results (final_results : List (String × List String)) :
    List (List String) :=
  trackHeader ::
    (sortStrAsc (final_results.map (·.1))).map (fun q =>
      trackRow q ((final_results.lookup q).getD []))

/-! ### Legacy configuration (`_build_legacy_config`, multi-model branch) -/

/-- `database_mapping`: OpenEvents_v1 searches on the Flickr30k database. -/
def databaseMapping (cp : String) : String :=
  if cp = "OpenEvents_v1" then "Flickr30k" else cp

/-- Private-test-mode renaming of a query collection. -/
def privatize (private_mode : Bool) (name : String) : String :=
  if private_mode then "Private_" ++ name else name

/-- The legacy `model_weights` table (multi-model branch). -/
def buildLegacyModelWeights (cp : String) (enable_h14 : Bool)
    (qL sL cL qB sB cB qH sH cH : ℚ) (private_mode : Bool) :
    List (String × ℚ) :=
  ([("Query_" ++ cp ++ "_Large", qL), ("Summary_" ++ cp ++ "_Large", sL),
    ("Concise_" ++ cp ++ "_Large", cL),
    ("Query_" ++ cp ++ "_Base", qB), ("Summary_" ++ cp ++ "_Base", sB),
    ("Concise_" ++ cp ++ "_Base", cB)] ++
   (if enable_h14 then
      [("Query_Laion_H14", qH), ("Summary_Laion_H14", sH),
       ("Concise_Laion_H14", cH)]
    else [])).map (fun p => (privatize private_mode p.1, p.2))

/-- The legacy `model_families` table (multi-model branch); search
collections are never prefixed. -/
def buildLegacyFamilies (cp : String) (enable_h14 : Bool)
    (famL famB famH : ℚ) (private_mode : Bool) :
    List (String × FamilyConfig) :=
  ([(cp ++ "-Large",
     FamilyConfig.mk
       ["Query_" ++ cp ++ "_Large", "Summary_" ++ cp ++ "_Large",
        "Concise_" ++ cp ++ "_Large"]
       ("Database_" ++ databaseMapping cp ++ "_Large") famL),
    (cp ++ "-Base",
     FamilyConfig.mk
       ["Query_" ++ cp ++ "_Base", "Summary_" ++ cp ++ "_Base",
        "Concise_" ++ cp ++ "_Base"]
       ("Database_" ++ databaseMapping cp ++ "_Base") famB)] ++
   (if enable_h14 then
      [("H14-Laion",
        FamilyConfig.mk
          ["Query_Laion_H14", "Summary_Laion_H14", "Concise_Laion_H14"]
          "Database_Laion_H14" famH)]
    else [])).map (fun p =>
      (p.1,
       FamilyConfig.mk (p.2.query_collections.map (privatize private_mode))
         p.2.search_collection p.2.family_weight))

/-! ### Query classification and the two search branches -/

/-- `load_and_classify_queries`'s per-row extraction: collect stripped,
non-empty, non-`"#"` cells in column order, stopping once `max_articles`
ids have been collected (checked after every column, as the source's
`break` is). -/
def extractArticleIdsAux (max_articles : ℕ) (acc : List String) :
    List String → List String
  | [] => acc.reverse
  | c :: cs =>
    let t := pyStrip c
    let acc' := if t ≠ "" ∧ t ≠ "#" then t :: acc else acc
    if max_articles ≤ acc'.length then acc'.reverse
    else extractArticleIdsAux max_articles acc' cs

/-- Article ids of one stage-1 row, capped at `max_articles`. -/
def extractArticleIds (max_articles : ℕ) (cells : List String) : List String :=
  extractArticleIdsAux max_articles [] cells

/-- `query_to_articles` from the stage-1 CSV rows. -/
def classifyQueries (stage1 : List (String × List String)) (max_articles : ℕ) :
    List (String × List String) :=
  stage1.map (fun r => (r.1, extractArticleIds max_articles r.2))

/-- `(image_id, article_rank)` pairs over the stage-1 articles of a query,
in candidate order (`search_queries_with_articles` first loop). -/
def rankPairsAux (a2i : List (String × List String)) :
    ℕ → List String → List (String × ℕ)
  | _, [] => []
  | rank, a :: rest =>
    ((a2i.lookup a).getD []).map (fun img => (img, rank)) ++
      rankPairsAux a2i (rank + 1) rest

/-- All candidate images (with article ranks) of a query. -/
def rankPairs (a2i : List (String × List String)) (article_ids : List String) :
    List (String × ℕ) :=
  rankPairsAux a2i 1 article_ids

/-- Active collections, multi-model mode: every active family's query
collections that occur in the requested collection list. -/
def activeCollsFor (actFams : List (String × FamilyConfig))
    (query_collections : List String) : List String :=
  actFams.flatMap (fun f =>
    f.2.query_collections.filter (fun c => query_collections.contains c))

/-- `search_queries_with_articles` (multi-model mode), with the vector
store abstracted: `getEmb` is the query-embedding lookup and `searchB` the
filtered ranking-boost search.  A query whose candidate image set is empty
is dropped (`continue`) and produces no entry at all. -/
def search_queries_with_articles (getEmb : String → String → Option (List ℚ))
    (searchB : String → List ℚ → List String → List (String × ℕ) → ℕ →
      List ImageResult)
    (query_collections : List String) (search_collection : String)
    (actFams : List (String × FamilyConfig))
    (a2i : List (String × List String))
    (query_to_articles : List (String × List String))
    (queries : List String) (top_k : ℕ) :
    List (String × List (String × List ImageResult)) :=
  queries.filterMap (fun q =>
    let aids := (query_to_articles.lookup q).getD []
    let pairs := rankPairs a2i aids
    if pairs.isEmpty then none
    else
      let uniq := dedupFirst (pairs.map (·.1))
      some (q, (activeCollsFor actFams query_collections).map (fun col =>
        (col,
         match getEmb col q with
         | some v => searchB search_collection v uniq pairs (top_k * 2)
         | none => []))))

/-- The collection filter of `search_queries_without_articles`: drop
collections whose name starts with `"Query-"`. -/
def optimizedCollections (query_collections : List String) : List String :=
  query_collections.filter (fun col => !(strHasPrefix "Query-" col))

/-- `search_queries_without_articles` (multi-model mode), with the vector
store abstracted: keep non-`"Query-"` collections that belong to some
active family, then search the database collection without a candidate
filter. -/
def search_queries_without_articles (getEmb : String → String → Option (List ℚ))
    (searchNF : String → List ℚ → ℕ → List ImageResult)
    (query_collections : List String) (search_collection : String)
    (actFams : List (String × FamilyConfig))
    (queries : List String) (direct_search_top_k : ℕ) :
    List (String × List (String × List ImageResult)) :=
  let optimized := (optimizedCollections query_collections).filter
    (fun col => (actFams.flatMap (fun f => f.2.query_collections)).contains col)
  if optimized.isEmpty then []
  else
    queries.map (fun q =>
      (q, optimized.map (fun col =>
        (col,
         match getEmb col q with
         | some v => searchNF search_collection v direct_search_top_k
         | none => []))))

/-- `_aggregate_final_collections`'s active weight table in multi-model
mode: the model weights of every active family's query collections. -/
def activeWeightsMulti (actFams : List (String × FamilyConfig))
    (model_weights : List (String × ℚ)) : List (String × ℚ) :=
  actFams.flatMap (fun f =>
    f.2.query_collections.filterMap (fun col =>
      (model_weights.lookup col).map (fun w => (col, w))))

/-- `multi_model_image_search_pipeline`: classify the stage-1 queries, run
both branches per active family, aggregate views within each family, then
fuse families with `multi_model_rrf`. -/
def multi_model_image_search_pipeline
    (getEmb : String → String → Option (List ℚ))
    (searchB : String → List ℚ → List String → List (String × ℕ) → ℕ →
      List ImageResult)
    (searchNF : String → List ℚ → ℕ → List ImageResult)
    (fams : List (String × FamilyConfig)) (model_weights : List (String × ℚ))
    (rrf_k k_mm : ℚ) (useVoting : Bool)
    (a2i : List (String × List String)) (stage1 : List (String × List String))
    (max_articles direct_search_top_k final_top_k : ℕ) :
    List (String × List String) :=
  let qta := classifyQueries stage1 max_articles
  let withQ := (qta.filter (fun p => !p.2.isEmpty)).map (·.1)
  let withoutQ := (qta.filter (fun p => p.2.isEmpty)).map (·.1)
  let actFams := activeFamilies fams
  let famResults := actFams.map (fun fc =>
    let famSearch :=
      search_queries_with_articles getEmb searchB fc.2.query_collections
        fc.2.search_collection actFams a2i qta withQ final_top_k ++
      search_queries_without_articles getEmb searchNF fc.2.query_collections
        fc.2.search_collection actFams withoutQ direct_search_top_k
    (fc.1,
     FamilyResults.mk
       (aggregate_final_collections (activeWeightsMulti actFams model_weights)
         rrf_k useVoting famSearch)
       fc.2.family_weight))
  multi_model_rrf k_mm famResults final_top_k useVoting

/-! ### `calculate_sigmoid_boost` -/

/-- The booster's configuration fields (all externally supplied). -/
structure SigmoidConfig where
  use_sigmoid_boosting : Bool
  article_ranking_boost : ℚ
  similarity_weight : ℚ
  rank_weight : ℚ
  sigmoid_bias : ℚ
  max_boost_factor : ℚ

/-- `calculate_sigmoid_boost`, with the library transcendentals `math.exp`
and `math.log` abstracted as arbitrary functions `mexp`, `mlog` (the
property proved below holds for every behaviour of them).  In sigmoid mode
a similarity below `0.5` returns `0` before any of them is evaluated. -/
def calculate_sigmoid_boost (mexp mlog : ℚ → ℚ) (cfg : SigmoidConfig)
    (s : ℚ) (r : ℕ) : ℚ :=
  if cfg.use_sigmoid_boosting = false then cfg.article_ranking_boost / r
  else if s < 1 / 2 then 0
  else
    (1 / (1 + mexp (-(cfg.similarity_weight * s - cfg.rank_weight * mlog r +
      cfg.sigmoid_bias)))) * cfg.max_boost_factor

/-- `final_score = base_score + ranking_boost`
(`search_similar_images_with_ranking_boost`, line 1070). -/
def boostedFinalScore (mexp mlog : ℚ → ℚ) (cfg : SigmoidConfig)
    (s : ℚ) (r : ℕ) : ℚ :=
  s + calculate_sigmoid_boost mexp mlog cfg s r

/-! ### `entity_search_system.py` — `search_articles_for_query` -/

/-- A query entity as stored in the queries index. -/
structure QEntity where
  text : String
  label : String
  deriving DecidableEq

/-- One weighted clause of the built query body (per entity: the base
text clause, plus a same-label bonus clause when the label is present). -/
structure WeightedClause where
  clause_text : String
  clause_label : String
  weight : ℚ
  same_label_bonus : Bool
  deriving DecidableEq

/-- Entity-label weight with `DEFAULT` fallback. -/
def weightFor (entity_weights : List (String × ℚ)) (label : String) : ℚ :=
  ((entity_weights.lookup label).getD
    ((entity_weights.lookup "DEFAULT").getD 0))

/-- The `should_queries` list: entities whose stripped text is empty are
skipped; each remaining entity adds a weighted clause, and a second clause
at weight `w * 1.3` when its label is non-empty. -/
def buildShouldQueries (entity_weights : List (String × ℚ))
    (entities : List QEntity) : List WeightedClause :=
  entities.flatMap (fun e =>
    let t := pyStrip e.text
    if t = "" then []
    else
      let w := weightFor entity_weights e.label
      WeightedClause.mk t e.label w false ::
        (if e.label ≠ "" then [WeightedClause.mk t e.label (w * 13 / 10) true]
         else []))

/-- One hit of the article index's response. -/
structure EsHit where
  article_id : String
  score : ℚ
  deriving DecidableEq

/-- The outcome of the search RPC: a transport failure, or a response with
an HTTP status and hits. -/
inductive EsOutcome where
  | transportError : EsOutcome
  | response : ℕ → List EsHit → EsOutcome
  deriving DecidableEq

/-- One entry of the returned ranking. -/
structure ArticleResult where
  rank : ℕ
  article_id : String
  score : ℚ
  deriving DecidableEq

/-- `enumerate(hits, 1)` into result records. -/
def hitsToResults : ℕ → List EsHit → List ArticleResult
  | _, [] => []
  | i, h :: hs => ArticleResult.mk i h.article_id h.score :: hitsToResults (i + 1) hs

/-- `search_articles_for_query`: empty entity list, no buildable clause,
transport error, or a non-200 status all yield `[]`; a 200 response yields
the enumerated hits. -/
def search_articles_for_query (entity_weights : List (String × ℚ))
    (entities : List QEntity) (outcome : EsOutcome) : List ArticleResult :=
  if entities.isEmpty then []
  else if (buildShouldQueries entity_weights entities).isEmpty then []
  else
    match outcome with
    | EsOutcome.transportError => []
    | EsOutcome.response status hits =>
      if status = 200 then hitsToResults 1 hits else []

/-! Spec-side cross-family fused score (the sum the spec describes). -/

/-- Spec formula: one family's contribution to `img`'s fused score — a
term at every rank `≤ top` where `img` appears in the family's list,
`w/(k + rank)` under RRF or `w` under voting. -/
def familySpecScore (w k : ℚ) (voting : Bool) (top : ℕ) (lst : List String)
    (img : String) : ℚ :=
  ((List.range lst.length).map (fun i =>
    if lst.get? i = some img ∧ i + 1 ≤ top
    then (if voting then w else w / (k + ((i + 1 : ℕ) : ℚ))) else 0)).sum

/-- Spec formula: the cross-family fused score of `img` for query `q`. -/
def fusedFamilyScore (family_results : List (String × FamilyResults)) (k : ℚ)
    (voting : Bool) (top : ℕ) (q img : String) : ℚ :=
  (family_results.map (fun fd =>
    familySpecScore fd.2.weight k voting top ((fd.2.results.lookup q).getD [])
      img)).sum

/-! ### Accumulator lemmas: the dict fold computes the contribution sums -/

theorem lookupScore_nil (id : String) : lookupScore [] id = 0 := rfl

theorem lookupScore_cons (k : String) (s : ℚ) (rest : List (String × ℚ))
    (id : String) :
    lookupScore ((k, s) :: rest) id = if id = k then s else lookupScore rest id := by
  by_cases h : id = k
  · have hb : (id == k) = true := beq_iff_eq.mpr h
    simp [lookupScore, List.lookup_cons, hb, h]
  · have hb : (id == k) = false := beq_eq_false_iff_ne.mpr h
    simp [lookupScore, List.lookup_cons, hb, h]

theorem lookupScore_addScore (acc : List (String × ℚ)) (key : String) (v : ℚ)
    (id : String) :
    lookupScore (addScore acc key v) id =
      lookupScore acc id + (if key = id then v else 0) := by
  induction acc with
  | nil =>
    by_cases h : id = key
    · simp [addScore, lookupScore_cons, lookupScore_nil, h]
    · rw [if_neg (fun h' : key = id => h h'.symm)]
      simp [addScore, lookupScore_cons, lookupScore_nil, h]
  | cons p rest ih =>
    obtain ⟨k₀, s₀⟩ := p
    by_cases hk : k₀ = key
    · subst hk
      by_cases h : id = k₀
      · simp [addScore, lookupScore_cons, h, add_comm]
      · rw [show addScore ((k₀, s₀) :: rest) k₀ v = (k₀, s₀ + v) :: rest by
          simp [addScore]]
        rw [lookupScore_cons, lookupScore_cons, if_neg h, if_neg h,
          if_neg (fun h' : k₀ = id => h h'.symm), add_zero]
    · have hne : addScore ((k₀, s₀) :: rest) key v =
          (k₀, s₀) :: addScore rest key v := by simp [addScore, hk]
      rw [hne, lookupScore_cons, lookupScore_cons]
      by_cases h : id = k₀
      · rw [if_pos h, if_pos h, if_neg (fun h' : key = id => hk (h ▸ h').symm),
          add_zero]
      · rw [if_neg h, if_neg h, ih]

theorem lookupScore_foldl (l : List (String × ℚ)) (acc : List (String × ℚ))
    (id : String) :
    lookupScore (l.foldl (fun a c => addScore a c.1 c.2) acc) id =
      lookupScore acc id + ((l.filter (fun c => c.1 == id)).map (·.2)).sum := by
  induction l generalizing acc with
  | nil => simp
  | cons c rest ih =>
    by_cases h : c.1 = id <;>
      simp [List.foldl_cons, ih, lookupScore_addScore, h,
        add_assoc, add_comm, add_left_comm]

theorem lookupScore_accumScores (l : List (String × ℚ)) (id : String) :
    lookupScore (accumScores l) id =
      ((l.filter (fun c => c.1 == id)).map (·.2)).sum := by
  simpa [accumScores, lookupScore_nil] using lookupScore_foldl l [] id

theorem keys_addScore (acc : List (String × ℚ)) (key : String) (v : ℚ) :
    (addScore acc key v).map (·.1) =
      if key ∈ acc.map (·.1) then acc.map (·.1) else acc.map (·.1) ++ [key] := by
  induction acc with
  | nil => simp [addScore]
  | cons p rest ih =>
    obtain ⟨k₀, s₀⟩ := p
    by_cases hk : k₀ = key
    · subst hk
      simp [addScore]
    · have : ¬ key = k₀ := fun h => hk h.symm
      by_cases hmem : key ∈ rest.map (·.1) <;>
        simp [addScore, hk, this, ih, hmem]

theorem mem_keys_addScore (acc : List (String × ℚ)) (key : String) (v : ℚ)
    (x : String) :
    x ∈ (addScore acc key v).map (·.1) ↔ x ∈ acc.map (·.1) ∨ x = key := by
  rw [keys_addScore]
  by_cases hmem : key ∈ acc.map (·.1)
  · simp only [hmem, if_pos]
    constructor
    · exact Or.inl
    · rintro (h | rfl)
      · exact h
      · exact hmem
  · simp [hmem]

theorem nodup_keys_addScore (acc : List (String × ℚ)) (key : String) (v : ℚ)
    (h : (acc.map (·.1)).Nodup) : ((addScore acc key v).map (·.1)).Nodup := by
  rw [keys_addScore]
  by_cases hmem : key ∈ acc.map (·.1)
  · simpa [hmem] using h
  · rw [if_neg hmem]
    refine List.Nodup.append h (by simp) (fun a ha hb => ?_)
    rw [List.mem_singleton] at hb
    exact hmem (hb ▸ ha)

theorem mem_keys_foldl (l : List (String × ℚ)) (acc : List (String × ℚ))
    (x : String) :
    x ∈ (l.foldl (fun a c => addScore a c.1 c.2) acc).map (·.1) ↔
      x ∈ acc.map (·.1) ∨ x ∈ l.map (·.1) := by
  induction l generalizing acc with
  | nil => simp
  | cons c rest ih =>
    rw [List.foldl_cons, ih, mem_keys_addScore]
    simp only [List.map_cons, List.mem_cons]
    tauto

theorem mem_keys_accumScores (l : List (String × ℚ)) (x : String) :
    x ∈ (accumScores l).map (·.1) ↔ x ∈ l.map (·.1) := by
  simpa [accumScores] using mem_keys_foldl l [] x

theorem nodup_keys_foldl (l : List (String × ℚ)) (acc : List (String × ℚ))
    (h : (acc.map (·.1)).Nodup) :
    ((l.foldl (fun a c => addScore a c.1 c.2) acc).map (·.1)).Nodup := by
  induction l generalizing acc with
  | nil => simpa using h
  | cons c rest ih => exact ih _ (nodup_keys_addScore acc c.1 c.2 h)

theorem nodup_keys_accumScores (l : List (String × ℚ)) :
    ((accumScores l).map (·.1)).Nodup :=
  nodup_keys_foldl l [] (by simp)

/-! ### Sorting lemmas -/

theorem sortDescScores_perm (l : List (String × ℚ)) :
    (sortDescScores l).Perm l :=
  List.perm_insertionSort scoreGe l

theorem sortDescScores_sorted (l : List (String × ℚ)) :
    (sortDescScores l).Sorted scoreGe :=
  List.sorted_insertionSort scoreGe l

theorem fillRow_nil (n : ℕ) : fillRow n [] = List.replicate n "#" := by
  simp [fillRow, List.getD_nil, List.map_const']

/-! ### Contribution characterizations: ranks are column indices -/

theorem cellContent?_isSome (c : Cell) :
    (cellContent? c).isSome = isValidCell c := by
  cases c with
  | none => rfl
  | some s =>
    by_cases h : isValidCell (some s)
    · simp [cellContent?, h]
    · simp only [cellContent?, if_neg h, Option.isSome_none]
      exact ((Bool.not_eq_true _).mp h).symm

theorem countValid_nil : countValid [] = 0 := rfl

theorem countValid_cons_valid (c : Cell) (s : String) (l : List Cell)
    (hc : cellContent? c = some s) :
    countValid (c :: l) = countValid l + 1 := by
  simp [countValid, List.countP_cons, hc]

theorem countValid_cons_invalid (c : Cell) (l : List Cell)
    (hc : cellContent? c = none) :
    countValid (c :: l) = countValid l := by
  simp [countValid, List.countP_cons, hc]

theorem mem_normalContribAux (cells : List Cell) (start r : ℕ) (id : String) :
    (id, r) ∈ normalContribAux start cells ↔
      start ≤ r ∧ cellContent? (cells.getD (r - start) none) = some id := by
  induction cells generalizing start with
  | nil => simp [normalContribAux, cellContent?]
  | cons c cs ih =>
    rcases Nat.lt_trichotomy r start with hlt | heq | hgt
    · have h1 : ¬ start ≤ r := by omega
      cases hc : cellContent? c with
      | some s =>
        simp only [normalContribAux, hc, List.mem_cons, ih, Prod.mk.injEq]
        constructor
        · rintro (⟨_, rfl⟩ | ⟨h, _⟩) <;> omega
        · rintro ⟨h, _⟩
          omega
      | none =>
        simp only [normalContribAux, hc, ih]
        constructor
        · rintro ⟨h, _⟩
          omega
        · rintro ⟨h, _⟩
          omega
    · subst heq
      have h0 : r - r = 0 := by omega
      cases hc : cellContent? c with
      | some s =>
        simp only [normalContribAux, hc, List.mem_cons, ih, Prod.mk.injEq, h0,
          List.getD_cons_zero]
        constructor
        · rintro (⟨rfl, _⟩ | ⟨h, _⟩)
          · exact ⟨le_refl r, rfl⟩
          · omega
        · rintro ⟨_, h⟩
          exact Or.inl ⟨(Option.some_inj.mp h).symm, trivial⟩
      | none =>
        simp only [normalContribAux, hc, ih, h0, List.getD_cons_zero]
        constructor
        · rintro ⟨h, _⟩
          omega
        · rintro ⟨_, h⟩
          exact absurd h (by simp)
    · have hsub : r - start = (r - (start + 1)) + 1 := by omega
      have h1 : start ≤ r := by omega
      cases hc : cellContent? c with
      | some s =>
        simp only [normalContribAux, hc, List.mem_cons, ih, Prod.mk.injEq, hsub,
          List.getD_cons_succ]
        constructor
        · rintro (⟨_, rfl⟩ | ⟨_, h⟩)
          · omega
          · exact ⟨h1, h⟩
        · rintro ⟨_, h⟩
          exact Or.inr ⟨by omega, h⟩
      | none =>
        simp only [normalContribAux, hc, ih, hsub, List.getD_cons_succ]
        constructor
        · rintro ⟨_, h⟩
          exact ⟨h1, h⟩
        · rintro ⟨_, h⟩
          exact ⟨by omega, h⟩

theorem mem_normalContrib (cells : List Cell) (r : ℕ) (id : String) :
    (id, r) ∈ normalContrib cells ↔
      1 ≤ r ∧ cellContent? (cells.getD (r - 1) none) = some id :=
  mem_normalContribAux cells 1 r id

theorem mem_adaptiveContribAux (cap : ℕ) (cells : List Cell)
    (start used r : ℕ) (id : String) :
    (id, r) ∈ adaptiveContribAux cap start used cells ↔
      start ≤ r ∧ cellContent? (cells.getD (r - start) none) = some id ∧
        used + countValid (cells.take (r - start)) < cap := by
  induction cells generalizing start used with
  | nil => simp [adaptiveContribAux, cellContent?]
  | cons c cs ih =>
    by_cases hcap : cap ≤ used
    · have hnone : ∀ n, ¬ used + n < cap := by omega
      simp only [adaptiveContribAux, if_pos hcap]
      simp [hnone]
    · rcases Nat.lt_trichotomy r start with hlt | heq | hgt
      · cases hc : cellContent? c with
        | some s =>
          simp only [adaptiveContribAux, if_neg hcap, hc, List.mem_cons, ih,
            Prod.mk.injEq]
          constructor
          · rintro (⟨_, rfl⟩ | ⟨h, _⟩) <;> omega
          · rintro ⟨h, _⟩
            omega
        | none =>
          simp only [adaptiveContribAux, if_neg hcap, hc, ih]
          constructor
          · rintro ⟨h, _⟩
            omega
          · rintro ⟨h, _⟩
            omega
      · subst heq
        have h0 : r - r = 0 := by omega
        cases hc : cellContent? c with
        | some s =>
          simp only [adaptiveContribAux, if_neg hcap, hc, List.mem_cons, ih,
            Prod.mk.injEq, h0, List.getD_cons_zero, List.take_zero,
            countValid_nil]
          constructor
          · rintro (⟨rfl, _⟩ | ⟨h, _⟩)
            · exact ⟨le_refl r, rfl, by omega⟩
            · omega
          · rintro ⟨_, h, _⟩
            exact Or.inl ⟨(Option.some_inj.mp h).symm, trivial⟩
        | none =>
          simp only [adaptiveContribAux, if_neg hcap, hc, ih, h0,
            List.getD_cons_zero, List.take_zero, countValid_nil]
          constructor
          · rintro ⟨h, _⟩
            omega
          · rintro ⟨_, h, _⟩
            exact absurd h (by simp)
      · have hsub : r - start = (r - (start + 1)) + 1 := by omega
        have h1 : start ≤ r := by omega
        cases hc : cellContent? c with
        | some s =>
          simp only [adaptiveContribAux, if_neg hcap, hc, List.mem_cons, ih,
            Prod.mk.injEq, hsub, List.getD_cons_succ, List.take_succ_cons,
            countValid_cons_valid c s _ hc]
          constructor
          · rintro (⟨_, rfl⟩ | ⟨_, h, hcount⟩)
            · omega
            · exact ⟨h1, h, by omega⟩
          · rintro ⟨_, h, hcount⟩
            exact Or.inr ⟨by omega, h, by omega⟩
        | none =>
          simp only [adaptiveContribAux, if_neg hcap, hc, ih, hsub,
            List.getD_cons_succ, List.take_succ_cons,
            countValid_cons_invalid c _ hc]
          constructor
          · rintro ⟨_, h, hcount⟩
            exact ⟨h1, h, hcount⟩
          · rintro ⟨_, h, hcount⟩
            exact ⟨by omega, h, hcount⟩

theorem mem_adaptiveContrib (cap : ℕ) (cells : List Cell) (r : ℕ)
    (id : String) :
    (id, r) ∈ adaptiveContrib cap cells ↔
      1 ≤ r ∧ cellContent? (cells.getD (r - 1) none) = some id ∧
        countValid (cells.take (r - 1)) < cap := by
  simpa using mem_adaptiveContribAux cap cells 1 0 r id

/-! ### Score sums: the accumulated score equals the spec's sum formula -/

theorem rrf_score_of_pos (r : ℕ) (k : ℚ) (h : 1 ≤ r) :
    rrf_score r k = 1 / (k + r) := by
  rw [rrf_score, if_neg (by omega)]

theorem normalContribAux_score_sum (cells : List Cell) (k : ℚ) (id : String)
    (r₀ : ℕ) (h : 1 ≤ r₀) :
    (((normalContribAux r₀ cells).filter (fun c => c.1 == id)).map
      (fun c => rrf_score c.2 k)).sum =
    ((List.range cells.length).map (fun i =>
      if cellContent? (cells.getD i none) = some id
      then 1 / (k + ((i + r₀ : ℕ) : ℚ)) else 0)).sum := by
  induction cells generalizing r₀ with
  | nil => simp [normalContribAux]
  | cons c cs ih =>
    have hmap : (List.range (c :: cs).length).map (fun i =>
        if cellContent? ((c :: cs).getD i none) = some id
        then 1 / (k + ((i + r₀ : ℕ) : ℚ)) else 0) =
        (if cellContent? c = some id then 1 / (k + (r₀ : ℚ)) else 0) ::
          (List.range cs.length).map (fun i =>
            if cellContent? (cs.getD i none) = some id
            then 1 / (k + ((i + (r₀ + 1) : ℕ) : ℚ)) else 0) := by
      rw [List.length_cons, List.range_succ_eq_map, List.map_cons, List.map_map]
      refine congrArg₂ List.cons (by simp) (List.map_congr_left ?_)
      intro i _
      simp only [Function.comp_apply, List.getD_cons_succ]
      rw [show Nat.succ i + r₀ = i + (r₀ + 1) from by omega]
    rw [hmap, List.sum_cons, ← ih (r₀ + 1) (by omega)]
    cases hc : cellContent? c with
    | some s =>
      by_cases hid : s = id
      · subst hid
        simp [normalContribAux, hc, List.filter_cons,
          rrf_score_of_pos r₀ k h]
      · have hb : (s == id) = false := beq_eq_false_iff_ne.mpr hid
        simp [normalContribAux, hc, List.filter_cons, hb, hid]
    | none =>
      simp [normalContribAux, hc]

theorem adaptiveContribAux_score_sum (cap : ℕ) (cells : List Cell) (k : ℚ)
    (id : String) (r₀ used : ℕ) (h : 1 ≤ r₀) :
    (((adaptiveContribAux cap r₀ used cells).filter (fun c => c.1 == id)).map
      (fun c => rrf_score c.2 k)).sum =
    ((List.range cells.length).map (fun i =>
      if cellContent? (cells.getD i none) = some id ∧
         used + countValid (cells.take i) < cap
      then 1 / (k + ((i + r₀ : ℕ) : ℚ)) else 0)).sum := by
  induction cells generalizing r₀ used with
  | nil => simp [adaptiveContribAux]
  | cons c cs ih =>
    by_cases hcap : cap ≤ used
    · have hzero : ∀ x ∈ (List.range (c :: cs).length).map (fun i =>
          if cellContent? ((c :: cs).getD i none) = some id ∧
             used + countValid ((c :: cs).take i) < cap
          then 1 / (k + ((i + r₀ : ℕ) : ℚ)) else 0), x = 0 := by
        intro x hx
        rcases List.mem_map.mp hx with ⟨i, _, rfl⟩
        rw [if_neg (fun hcon => by omega)]
      simp only [adaptiveContribAux, if_pos hcap, List.filter_nil, List.map_nil,
        List.sum_nil]
      exact (List.sum_eq_zero hzero).symm
    · have hmap : (List.range (c :: cs).length).map (fun i =>
          if cellContent? ((c :: cs).getD i none) = some id ∧
             used + countValid ((c :: cs).take i) < cap
          then 1 / (k + ((i + r₀ : ℕ) : ℚ)) else 0) =
          (if cellContent? c = some id ∧ used < cap
           then 1 / (k + (r₀ : ℚ)) else 0) ::
            (List.range cs.length).map (fun i =>
              if cellContent? (cs.getD i none) = some id ∧
                 used + countValid (c :: cs.take i) < cap
              then 1 / (k + ((i + (r₀ + 1) : ℕ) : ℚ)) else 0) := by
        rw [List.length_cons, List.range_succ_eq_map, List.map_cons,
          List.map_map]
        refine congrArg₂ List.cons (by simp [countValid_nil]) (List.map_congr_left ?_)
        intro i _
        simp only [Function.comp_apply, List.getD_cons_succ, List.take_succ_cons]
        rw [show Nat.succ i + r₀ = i + (r₀ + 1) from by omega]
      rw [hmap, List.sum_cons]
      cases hc : cellContent? c with
      | some s =>
        have htail : (List.range cs.length).map (fun i =>
            if cellContent? (cs.getD i none) = some id ∧
               used + countValid (c :: cs.take i) < cap
            then 1 / (k + ((i + (r₀ + 1) : ℕ) : ℚ)) else 0) =
            (List.range cs.length).map (fun i =>
              if cellContent? (cs.getD i none) = some id ∧
                 used + 1 + countValid (cs.take i) < cap
              then 1 / (k + ((i + (r₀ + 1) : ℕ) : ℚ)) else 0) := by
          refine List.map_congr_left (fun i _ => ?_)
          have hcnt : countValid (c :: cs.take i) = countValid (cs.take i) + 1 :=
            countValid_cons_valid c s _ hc
          refine if_congr (and_congr_right (fun _ => ?_)) rfl rfl
          rw [hcnt]
          omega
        rw [htail, ← ih (r₀ + 1) (used + 1) (by omega)]
        by_cases hid : s = id
        · subst hid
          have hu : used < cap := by omega
          simp [adaptiveContribAux, if_neg hcap, hc, List.filter_cons,
            rrf_score_of_pos r₀ k h, hu]
        · have hb : (s == id) = false := beq_eq_false_iff_ne.mpr hid
          simp [adaptiveContribAux, if_neg hcap, hc, List.filter_cons, hb, hid]
      | none =>
        have htail : (List.range cs.length).map (fun i =>
            if cellContent? (cs.getD i none) = some id ∧
               used + countValid (c :: cs.take i) < cap
            then 1 / (k + ((i + (r₀ + 1) : ℕ) : ℚ)) else 0) =
            (List.range cs.length).map (fun i =>
              if cellContent? (cs.getD i none) = some id ∧
                 used + countValid (cs.take i) < cap
              then 1 / (k + ((i + (r₀ + 1) : ℕ) : ℚ)) else 0) := by
          refine List.map_congr_left (fun i _ => ?_)
          simp only [countValid_cons_invalid c _ hc]
        rw [htail, ← ih (r₀ + 1) used (by omega)]
        simp [adaptiveContribAux, if_neg hcap, hc]

theorem file_score_sum_normal (cells : List Cell) (k : ℚ) (id : String) :
    ((((normalContrib cells).map (fun c => (c.1, rrf_score c.2 k))).filter
      (fun x => x.1 == id)).map (·.2)).sum =
    ((List.range cells.length).map (fun i =>
      if cellContent? (cells.getD i none) = some id
      then 1 / (k + ((i + 1 : ℕ) : ℚ)) else 0)).sum := by
  rw [List.filter_map, List.map_map]
  exact normalContribAux_score_sum cells k id 1 le_rfl

theorem file_score_sum_adaptive (cap : ℕ) (cells : List Cell) (k : ℚ)
    (id : String) :
    ((((adaptiveContrib cap cells).map (fun c => (c.1, rrf_score c.2 k))).filter
      (fun x => x.1 == id)).map (·.2)).sum =
    ((List.range cells.length).map (fun i =>
      if cellContent? (cells.getD i none) = some id ∧
         countValid (cells.take i) < cap
      then 1 / (k + ((i + 1 : ℕ) : ℚ)) else 0)).sum := by
  rw [List.filter_map, List.map_map]
  simpa using adaptiveContribAux_score_sum cap cells k id 1 0 le_rfl

theorem lookupScore_queryContribsNormal (files : List SubmissionFile) (k : ℚ)
    (q id : String) :
    lookupScore (accumScores (queryContribsNormal files k q)) id =
      fusedScoreNormal files k q id := by
  rw [lookupScore_accumScores]
  induction files with
  | nil => simp [queryContribsNormal, fusedScoreNormal]
  | cons f fs ih =>
    rw [queryContribsNormal, List.flatMap_cons, List.filter_append,
      List.map_append, List.sum_append, fusedScoreNormal, List.map_cons,
      List.sum_cons]
    exact congrArg₂ (· + ·) (file_score_sum_normal _ k id) ih

theorem lookupScore_queryContribsAdaptive (files : List SubmissionFile) (k : ℚ)
    (q : String) (cap : ℕ) (id : String) :
    lookupScore (accumScores (queryContribsAdaptive files k q cap)) id =
      fusedScoreAdaptive files k q cap id := by
  rw [lookupScore_accumScores]
  induction files with
  | nil => simp [queryContribsAdaptive, fusedScoreAdaptive]
  | cons f fs ih =>
    rw [queryContribsAdaptive, List.flatMap_cons, List.filter_append,
      List.map_append, List.sum_append, fusedScoreAdaptive, List.map_cons,
      List.sum_cons]
    exact congrArg₂ (· + ·) (file_score_sum_adaptive cap _ k id) ih

/-! ### Well-formed rows: the adaptive cap bounds contribution ranks -/

theorem valid_getD_lt_leading (cells : List Cell) (m : ℕ)
    (hwf : wellFormedRow cells = true)
    (hv : isValidCell (cells.getD m none) = true) :
    m < leadingValidCount cells := by
  induction cells generalizing m with
  | nil => simp [isValidCell] at hv
  | cons c cs ih =>
    cases hvc : isValidCell c with
    | true =>
      have hwf' : wellFormedRow cs = true := by
        simpa [wellFormedRow, List.dropWhile_cons, hvc] using hwf
      have hlead : leadingValidCount (c :: cs) = leadingValidCount cs + 1 := by
        simp [leadingValidCount, List.takeWhile_cons, hvc]
      cases m with
      | zero => omega
      | succ m' =>
        rw [List.getD_cons_succ] at hv
        have := ih m' hwf' hv
        omega
    | false =>
      have hall : (c :: cs).all (fun x => !isValidCell x) = true := by
        simpa [wellFormedRow, List.dropWhile_cons, hvc] using hwf
      have hinvalid : isValidCell ((c :: cs).getD m none) = false := by
        rcases Nat.lt_or_ge m (c :: cs).length with hm | hm
        · have hmem : (c :: cs).getD m none ∈ c :: cs := by
            rw [List.getD_eq_getElem?_getD, List.getElem?_eq_getElem hm]
            exact Option.getD_some ▸ List.getElem_mem hm
          have := List.all_eq_true.mp hall _ hmem
          simpa using this
        · rw [List.getD_eq_getElem?_getD, List.getElem?_eq_none hm]
          rfl
      rw [hinvalid] at hv
      exact absurd hv (by simp)

theorem countValid_take_of_le_leading (cells : List Cell) (n : ℕ)
    (h : n ≤ leadingValidCount cells) : countValid (cells.take n) = n := by
  induction cells generalizing n with
  | nil =>
    have : n = 0 := by simpa [leadingValidCount] using h
    simp [this, countValid_nil]
  | cons c cs ih =>
    cases n with
    | zero => simp [countValid_nil]
    | succ n' =>
      cases hvc : isValidCell c with
      | false =>
        have : leadingValidCount (c :: cs) = 0 := by
          simp [leadingValidCount, List.takeWhile_cons, hvc]
        omega
      | true =>
        have hlead : leadingValidCount (c :: cs) = leadingValidCount cs + 1 := by
          simp [leadingValidCount, List.takeWhile_cons, hvc]
        have hcs : n' ≤ leadingValidCount cs := by omega
        have hsome : (cellContent? c).isSome = true := by
          rw [cellContent?_isSome, hvc]
        rcases Option.isSome_iff_exists.mp hsome with ⟨s, hs⟩
        rw [List.take_succ_cons, countValid_cons_valid c s _ hs, ih n' hcs]

theorem adaptive_rank_le_cap (cap : ℕ) (cells : List Cell) (id : String)
    (r : ℕ) (hwf : wellFormedRow cells = true)
    (hmem : (id, r) ∈ adaptiveContrib cap cells) : r ≤ cap := by
  rcases (mem_adaptiveContrib cap cells r id).mp hmem with ⟨hr, hcell, hcount⟩
  have hv : isValidCell (cells.getD (r - 1) none) = true := by
    rw [← cellContent?_isSome, hcell]
    rfl
  have hlt := valid_getD_lt_leading cells (r - 1) hwf hv
  have heq : countValid (cells.take (r - 1)) = r - 1 :=
    countValid_take_of_le_leading _ _ (by omega)
  omega

/-! ### Family-level contribution lemmas -/

theorem familyRankContribs_filter_sum (w k : ℚ) (voting : Bool) (top : ℕ)
    (img : String) (lst : List String) (r₀ : ℕ) :
    (((familyRankContribs w k voting top r₀ lst).filter
      (fun c => c.1 == img)).map (·.2)).sum =
    ((List.range lst.length).map (fun i =>
      if lst.get? i = some img ∧ i + r₀ ≤ top
      then (if voting then w else w / (k + ((i + r₀ : ℕ) : ℚ))) else 0)).sum := by
  induction lst generalizing r₀ with
  | nil => simp [familyRankContribs]
  | cons a rest ih =>
    have hmap : (List.range (a :: rest).length).map (fun i =>
        if (a :: rest).get? i = some img ∧ i + r₀ ≤ top
        then (if voting then w else w / (k + ((i + r₀ : ℕ) : ℚ))) else 0) =
        (if (a : String) = img ∧ r₀ ≤ top
         then (if voting then w else w / (k + (r₀ : ℚ))) else 0) ::
          (List.range rest.length).map (fun i =>
            if rest.get? i = some img ∧ i + (r₀ + 1) ≤ top
            then (if voting then w else w / (k + ((i + (r₀ + 1) : ℕ) : ℚ)))
            else 0) := by
      rw [List.length_cons, List.range_succ_eq_map, List.map_cons, List.map_map]
      refine congrArg₂ List.cons (by simp) (List.map_congr_left ?_)
      intro i _
      simp only [Function.comp_apply, List.get?_cons_succ]
      rw [show Nat.succ i + r₀ = i + (r₀ + 1) from by omega]
    rw [hmap, List.sum_cons, ← ih (r₀ + 1)]
    by_cases hr : r₀ ≤ top
    · by_cases himg : a = img
      · subst himg
        simp [familyRankContribs, hr, List.filter_cons]
      · have hb : (a == img) = false := beq_eq_false_iff_ne.mpr himg
        simp [familyRankContribs, hr, List.filter_cons, hb, himg]
    · simp [familyRankContribs, hr]

theorem mem_keys_familyRankContribs (w k : ℚ) (voting : Bool) (top : ℕ)
    (lst : List String) (r₀ : ℕ) (x : String) :
    x ∈ (familyRankContribs w k voting top r₀ lst).map (·.1) ↔
      ∃ j, lst.get? j = some x ∧ j + r₀ ≤ top := by
  induction lst generalizing r₀ with
  | nil => simp [familyRankContribs]
  | cons a rest ih =>
    by_cases hr : r₀ ≤ top
    · simp only [familyRankContribs, if_pos hr, List.map_cons, List.mem_cons,
        ih (r₀ + 1)]
      constructor
      · rintro (rfl | ⟨j, hj, hjt⟩)
        · exact ⟨0, by simp, by omega⟩
        · exact ⟨j + 1, by simpa using hj, by omega⟩
      · rintro ⟨j, hj, hjt⟩
        cases j with
        | zero =>
          left
          simpa using hj.symm
        | succ j' =>
          right
          exact ⟨j', by simpa using hj, by omega⟩
    · simp only [familyRankContribs, if_neg hr, ih (r₀ + 1)]
      constructor
      · rintro ⟨j, hj, hjt⟩
        exact ⟨j + 1, by simpa using hj, by omega⟩
      · rintro ⟨j, hj, hjt⟩
        cases j with
        | zero => omega
        | succ j' => exact ⟨j', by simpa using hj, by omega⟩

theorem lookupScore_familyContribs (family_results : List (String × FamilyResults))
    (k : ℚ) (voting : Bool) (top : ℕ) (q img : String) :
    lookupScore (accumScores (family_results.flatMap (fun fd =>
      familyRankContribs fd.2.weight k voting top 1
        ((fd.2.results.lookup q).getD [])))) img =
      fusedFamilyScore family_results k voting top q img := by
  rw [lookupScore_accumScores]
  induction family_results with
  | nil => simp [fusedFamilyScore]
  | cons fd fs ih =>
    rw [List.flatMap_cons, List.filter_append, List.map_append, List.sum_append,
      fusedFamilyScore, List.map_cons, List.sum_cons]
    refine congrArg₂ (· + ·) ?_ ih
    simpa [familySpecScore] using familyRankContribs_filter_sum fd.2.weight k
      voting top img ((fd.2.results.lookup q).getD []) 1

/-! ### Zero-weight views and families contribute nothing -/

theorem lookupScore_of_mem_nodup (acc : List (String × ℚ)) (x : String) (v : ℚ)
    (hnd : (acc.map (·.1)).Nodup) (hmem : (x, v) ∈ acc) :
    lookupScore acc x = v := by
  induction acc with
  | nil => simp at hmem
  | cons p rest ih =>
    obtain ⟨k₀, s₀⟩ := p
    rcases List.mem_cons.mp hmem with heq | hrest
    · obtain ⟨rfl, rfl⟩ := Prod.mk.injEq .. ▸ heq
      · rw [lookupScore_cons, if_pos rfl]
    · rw [List.map_cons, List.nodup_cons] at hnd
      by_cases hx : x = k₀
      · exfalso
        apply hnd.1
        subst hx
        exact List.mem_map.mpr ⟨(x, v), hrest, rfl⟩
      · rw [lookupScore_cons, if_neg hx]
        exact ih hnd.2 hrest

theorem flatMap_skip_zero_view (aw : List (String × ℚ)) (k : ℚ) (v : Bool)
    (c₀ : String) (hw : (aw.lookup c₀).getD 0 = 0)
    (l : List (String × List ImageResult)) :
    (l.filter (fun cr => !(cr.1 == c₀))).flatMap (fun cr =>
      let w := (aw.lookup cr.1).getD 0
      if w ≤ 0 then [] else rankContribs w k v 1 cr.2) =
    l.flatMap (fun cr =>
      let w := (aw.lookup cr.1).getD 0
      if w ≤ 0 then [] else rankContribs w k v 1 cr.2) := by
  induction l with
  | nil => rfl
  | cons cr rest ih =>
    by_cases h : cr.1 = c₀
    · have hb : (cr.1 == c₀) = true := beq_iff_eq.mpr h
      have hz : ((aw.lookup cr.1).getD 0 : ℚ) ≤ 0 := by rw [h, hw]
      simp only [List.filter_cons, hb, Bool.not_true, Bool.false_eq_true,
        if_neg, List.flatMap_cons, if_pos hz, List.nil_append]
      exact ih
    · have hb : (cr.1 == c₀) = false := beq_eq_false_iff_ne.mpr h
      simp only [List.filter_cons, hb, Bool.not_false, if_pos,
        List.flatMap_cons]
      rw [ih]

theorem aggregate_skip_zero_view (aw : List (String × ℚ)) (k : ℚ) (v : Bool)
    (c₀ : String) (hw : (aw.lookup c₀).getD 0 = 0)
    (sr : List (String × List (String × List ImageResult))) :
    aggregate_final_collections aw k v sr =
      aggregate_final_collections aw k v
        (sr.map (fun qr => (qr.1, qr.2.filter (fun cr => !(cr.1 == c₀))))) := by
  unfold aggregate_final_collections
  rw [List.map_map]
  refine List.map_congr_left (fun qr _ => ?_)
  simp only [Function.comp_apply]
  rw [flatMap_skip_zero_view aw k v c₀ hw qr.2]

theorem activeFamilies_erase_zero (fams : List (String × FamilyConfig))
    (f₀ : String × FamilyConfig) (hw : f₀.2.family_weight = 0) :
    activeFamilies (fams.erase f₀) = activeFamilies fams := by
  induction fams with
  | nil => rfl
  | cons a rest ih =>
    by_cases h : a = f₀
    · subst h
      have hb : (a == a) = true := beq_self_eq_true a
      have hz : ¬ (0 : ℚ) < a.2.family_weight := by rw [hw]; exact lt_irrefl 0
      simp only [List.erase_cons, hb, if_pos]
      simp only [activeFamilies, List.filter_cons, decide_eq_true_eq, hz,
        if_neg, Bool.false_eq_true, decide_eq_false hz]
      rfl
    · have hb : (a == f₀) = false := beq_eq_false_iff_ne.mpr h
      unfold activeFamilies at ih ⊢
      simp only [List.erase_cons, hb, Bool.false_eq_true, if_false,
        List.filter_cons]
      cases hd : decide (0 < a.2.family_weight) <;> simp [hd, ih]

theorem pipeline_erase_zero_family
    (getEmb : String → String → Option (List ℚ))
    (searchB : String → List ℚ → List String → List (String × ℕ) → ℕ →
      List ImageResult)
    (searchNF : String → List ℚ → ℕ → List ImageResult)
    (fams : List (String × FamilyConfig)) (f₀ : String × FamilyConfig)
    (model_weights : List (String × ℚ)) (rrf_k k_mm : ℚ) (useVoting : Bool)
    (a2i stage1 : List (String × List String))
    (max_articles direct_search_top_k final_top_k : ℕ)
    (hw : f₀.2.family_weight = 0) :
    multi_model_image_search_pipeline getEmb searchB searchNF fams
      model_weights rrf_k k_mm useVoting a2i stage1 max_articles
      direct_search_top_k final_top_k =
    multi_model_image_search_pipeline getEmb searchB searchNF (fams.erase f₀)
      model_weights rrf_k k_mm useVoting a2i stage1 max_articles
      direct_search_top_k final_top_k := by
  unfold multi_model_image_search_pipeline
  rw [activeFamilies_erase_zero fams f₀ hw]

/-! ### Key-membership helpers for the fused score maps -/

theorem mem_keys_queryContribsNormal (files : List SubmissionFile) (k : ℚ)
    (q id : String) :
    id ∈ (queryContribsNormal files k q).map (·.1) ↔
      ∃ f ∈ files, ∃ r, (id, r) ∈ normalContrib ((findRow f q).getD []) := by
  constructor
  · intro h
    rcases List.mem_map.mp h with ⟨p, hp, rfl⟩
    rcases List.mem_flatMap.mp hp with ⟨f, hf, hpf⟩
    rcases List.mem_map.mp hpf with ⟨c, hc, rfl⟩
    exact ⟨f, hf, c.2, by simpa using hc⟩
  · rintro ⟨f, hf, r, hmem⟩
    refine List.mem_map.mpr ⟨(id, rrf_score r k), ?_, rfl⟩
    exact List.mem_flatMap.mpr ⟨f, hf, List.mem_map.mpr ⟨(id, r), hmem, rfl⟩⟩

theorem mem_keys_queryContribsAdaptive (files : List SubmissionFile) (k : ℚ)
    (q : String) (cap : ℕ) (id : String) :
    id ∈ (queryContribsAdaptive files k q cap).map (·.1) ↔
      ∃ f ∈ files, ∃ r, (id, r) ∈ adaptiveContrib cap ((findRow f q).getD []) := by
  constructor
  · intro h
    rcases List.mem_map.mp h with ⟨p, hp, rfl⟩
    rcases List.mem_flatMap.mp hp with ⟨f, hf, hpf⟩
    rcases List.mem_map.mp hpf with ⟨c, hc, rfl⟩
    exact ⟨f, hf, c.2, by simpa using hc⟩
  · rintro ⟨f, hf, r, hmem⟩
    refine List.mem_map.mpr ⟨(id, rrf_score r k), ?_, rfl⟩
    exact List.mem_flatMap.mpr ⟨f, hf, List.mem_map.mpr ⟨(id, r), hmem, rfl⟩⟩

theorem mem_keys_familyFlatMap (family_results : List (String × FamilyResults))
    (k : ℚ) (voting : Bool) (top : ℕ) (q img : String) :
    img ∈ (family_results.flatMap (fun fd =>
        familyRankContribs fd.2.weight k voting top 1
          ((fd.2.results.lookup q).getD []))).map (·.1) ↔
      ∃ fd ∈ family_results, ∃ j, j + 1 ≤ top ∧
        ((fd.2.results.lookup q).getD []).get? j = some img := by
  constructor
  · intro h
    rcases List.mem_map.mp h with ⟨p, hp, rfl⟩
    rcases List.mem_flatMap.mp hp with ⟨fd, hfd, hpf⟩
    have := (mem_keys_familyRankContribs fd.2.weight k voting top
      ((fd.2.results.lookup q).getD []) 1 p.1).mp
      (List.mem_map.mpr ⟨p, hpf, rfl⟩)
    rcases this with ⟨j, hj, hjt⟩
    exact ⟨fd, hfd, j, hjt, hj⟩
  · rintro ⟨fd, hfd, j, hjt, hj⟩
    rcases List.mem_map.mp ((mem_keys_familyRankContribs fd.2.weight k voting
      top ((fd.2.results.lookup q).getD []) 1 img).mpr ⟨j, hj, hjt⟩) with
      ⟨p, hp, hp1⟩
    exact List.mem_map.mpr ⟨p, List.mem_flatMap.mpr ⟨fd, hfd, hp⟩, hp1⟩

/-! ### Claim theorems -/

/-- C10: in both standalone RRF modes the rank in an item's `1/(k + rank)`
contribution is the 1-based column index of the cell it came from —
sentinel and NaN cells are skipped but not renumbered — and in adaptive
mode the per-file cap bounds the number of non-sentinel entries consumed
before the position, not the columns scanned. -/
theorem rrf_rank_is_column_index (cells : List Cell) (cap : ℕ) (id : String)
    (r : ℕ) (k : ℚ) :
    ((id, r) ∈ normalContrib cells ↔
      1 ≤ r ∧ cellContent? (cells.getD (r - 1) none) = some id) ∧
    ((id, r) ∈ adaptiveContrib cap cells ↔
      1 ≤ r ∧ cellContent? (cells.getD (r - 1) none) = some id ∧
        countValid (cells.take (r - 1)) < cap) ∧
    (1 ≤ r → rrf_score r k = 1 / (k + r)) :=
  ⟨mem_normalContrib cells r id, mem_adaptiveContrib cap cells r id,
    rrf_score_of_pos r k⟩

/-- C4: in normal (anti-bias) standalone RRF, a query missing or empty in
any input file gets an all-sentinel row; otherwise every ranked item's
fused score is the sum over files of `1/(k + rank)` at the ranks where it
appears, the ranked items are exactly those appearing validly in some
file, and the output row is the top `top_n` of them by descending fused
score (`"#"`-padded). -/
theorem rrf_normal_mode_correct (files : List SubmissionFile) (k : ℚ)
    (top_n : ℕ) (q : String) (row : List String)
    (hrow : (q, row) ∈ perform_rrf_reranking files k top_n) :
    (¬ (∀ f ∈ files, hasValidArticles f q = true) →
      row = List.replicate top_n "#") ∧
    ((∀ f ∈ files, hasValidArticles f q = true) →
      ∃ ranked : List (String × ℚ),
        (∀ p ∈ ranked, p.2 = fusedScoreNormal files k q p.1) ∧
        (∀ id, id ∈ ranked.map (·.1) ↔
          ∃ f ∈ files, ∃ r, (id, r) ∈ normalContrib ((findRow f q).getD [])) ∧
        (ranked.map (·.1)).Nodup ∧
        ranked.Sorted scoreGe ∧
        row = fillRow top_n (ranked.map (·.1))) := by
  rcases List.mem_map.mp hrow with ⟨q', _, heq⟩
  have h1 : q' = q := congrArg Prod.fst heq
  subst h1
  have h2 : rrfRowFor files k top_n q' = row := congrArg Prod.snd heq
  subst h2
  constructor
  · intro hnot
    have hcond : ¬ (files.all (fun f => hasValidArticles f q') = true) :=
      fun h => hnot (fun f hf => List.all_eq_true.mp h f hf)
    rw [rrfRowFor, if_neg hcond, fillRow_nil]
  · intro hall
    have hcond : files.all (fun f => hasValidArticles f q') = true :=
      List.all_eq_true.mpr hall
    refine ⟨sortDescScores (accumScores (queryContribsNormal files k q')),
      ?_, ?_, ?_, sortDescScores_sorted _, ?_⟩
    · intro p hp
      have hp' : p ∈ accumScores (queryContribsNormal files k q') :=
        (sortDescScores_perm _).mem_iff.mp hp
      have := lookupScore_of_mem_nodup _ p.1 p.2 (nodup_keys_accumScores _)
        (by simpa using hp')
      rw [← this, lookupScore_queryContribsNormal]
    · intro id
      rw [((sortDescScores_perm _).map (·.1)).mem_iff, mem_keys_accumScores,
        mem_keys_queryContribsNormal]
    · exact ((sortDescScores_perm _).map (·.1)).nodup_iff.mpr
        (nodup_keys_accumScores _)
    · rw [rrfRowFor, if_pos hcond]

/-- C4 witness: the normal-mode theorem applied to two concrete files both
containing query Q1. -/
theorem rrf_normal_mode_correct_witness :
    (¬ (∀ f ∈ ([⟨[("Q1", [some "a", some "b"])]⟩,
          ⟨[("Q1", [some "b", some "a"])]⟩] : List SubmissionFile),
        hasValidArticles f "Q1" = true) →
      (["a", "b"] : List String) = List.replicate 2 "#") ∧
    ((∀ f ∈ ([⟨[("Q1", [some "a", some "b"])]⟩,
          ⟨[("Q1", [some "b", some "a"])]⟩] : List SubmissionFile),
        hasValidArticles f "Q1" = true) →
      ∃ ranked : List (String × ℚ),
        (∀ p ∈ ranked, p.2 = fusedScoreNormal
          [⟨[("Q1", [some "a", some "b"])]⟩,
           ⟨[("Q1", [some "b", some "a"])]⟩] 60 "Q1" p.1) ∧
        (∀ id, id ∈ ranked.map (·.1) ↔
          ∃ f ∈ ([⟨[("Q1", [some "a", some "b"])]⟩,
              ⟨[("Q1", [some "b", some "a"])]⟩] : List SubmissionFile),
            ∃ r, (id, r) ∈ normalContrib ((findRow f "Q1").getD [])) ∧
        (ranked.map (·.1)).Nodup ∧
        ranked.Sorted scoreGe ∧
        (["a", "b"] : List String) = fillRow 2 (ranked.map (·.1))) :=
  rrf_normal_mode_correct
    [⟨[("Q1", [some "a", some "b"])]⟩, ⟨[("Q1", [some "b", some "a"])]⟩]
    60 2 "Q1" ["a", "b"] (by decide)

/-- C5 counterexample: with file A = `[x, y, z]` and file B = `[a, #, b]`
for Q1 the leading counts are `[3, 1]`, so `cap = min(2·1, 3) = 2`; yet
`b`, whose only appearance in any file is at column rank 3 > cap, still
contributes (file B has consumed only one non-sentinel entry before it)
and appears in the fused output row. -/
theorem rrf_adaptive_cap_counterexample :
    adaptiveCap [⟨[("Q1", [some "x", some "y", some "z"])]⟩,
      ⟨[("Q1", [some "a", some "#", some "b"])]⟩] "Q1" = 2 ∧
    normalContrib [some "a", some "#", some "b"] = [("a", 1), ("b", 3)] ∧
    adaptiveContrib 2 [some "a", some "#", some "b"] = [("a", 1), ("b", 3)] ∧
    perform_rrf_reranking_adaptive
      [⟨[("Q1", [some "x", some "y", some "z"])]⟩,
       ⟨[("Q1", [some "a", some "#", some "b"])]⟩] 60 5 =
      [("Q1", ["x", "a", "y", "b", "#"])] :=
  ⟨by decide, by decide, by decide, by decide⟩

/-- C5 (amended): in adaptive standalone RRF, queries with a zero leading
count in any file get an all-sentinel row; otherwise, with
`cap = min(2·m, max count)`, each file contributes exactly those of its
valid cells preceded by fewer than `cap` consumed non-sentinel entries —
so when a file's row is well-formed (sentinels only trailing) no rank
beyond `cap` contributes — and the output is the top `top_n` items by the
capped fused score. -/
theorem rrf_adaptive_mode_correct (files : List SubmissionFile) (k : ℚ)
    (top_n : ℕ) (q : String) (row : List String)
    (hrow : (q, row) ∈ perform_rrf_reranking_adaptive files k top_n) :
    ((∃ f ∈ files, queryArticleCount f q = 0) →
      row = List.replicate top_n "#") ∧
    ((∀ f ∈ files, 0 < queryArticleCount f q) →
      (∀ f ∈ files, ∀ id r,
        ((id, r) ∈ adaptiveContrib (adaptiveCap files q)
            ((findRow f q).getD []) ↔
          (id, r) ∈ normalContrib ((findRow f q).getD []) ∧
            countValid (((findRow f q).getD []).take (r - 1)) <
              adaptiveCap files q)) ∧
      (∀ f ∈ files, wellFormedRow ((findRow f q).getD []) = true →
        ∀ id r, (id, r) ∈ adaptiveContrib (adaptiveCap files q)
            ((findRow f q).getD []) →
          r ≤ adaptiveCap files q) ∧
      ∃ ranked : List (String × ℚ),
        (∀ p ∈ ranked,
          p.2 = fusedScoreAdaptive files k q (adaptiveCap files q) p.1) ∧
        (∀ id, id ∈ ranked.map (·.1) ↔ ∃ f ∈ files, ∃ r,
          (id, r) ∈ adaptiveContrib (adaptiveCap files q)
            ((findRow f q).getD [])) ∧
        (ranked.map (·.1)).Nodup ∧
        ranked.Sorted scoreGe ∧
        row = fillRow top_n (ranked.map (·.1))) := by
  rcases List.mem_map.mp hrow with ⟨q', _, heq⟩
  have h1 : q' = q := congrArg Prod.fst heq
  subst h1
  have h2 : adaptiveRowFor files k top_n q' = row := congrArg Prod.snd heq
  subst h2
  constructor
  · rintro ⟨f, hf, hzero⟩
    have hcond : ¬ ((adaptiveCounts files q').all
        (fun c => decide (0 < c)) = true) := by
      intro h
      have := List.all_eq_true.mp h (queryArticleCount f q')
        (List.mem_map.mpr ⟨f, hf, rfl⟩)
      rw [hzero] at this
      exact absurd (of_decide_eq_true this) (lt_irrefl 0)
    rw [adaptiveRowFor, if_neg hcond, fillRow_nil]
  · intro hall
    have hcond : (adaptiveCounts files q').all (fun c => decide (0 < c)) = true := by
      refine List.all_eq_true.mpr (fun c hc => ?_)
      rcases List.mem_map.mp hc with ⟨f, hf, rfl⟩
      exact decide_eq_true (hall f hf)
    refine ⟨?_, ?_, ⟨sortDescScores (accumScores
      (queryContribsAdaptive files k q' (adaptiveCap files q'))),
      ?_, ?_, ?_, sortDescScores_sorted _, ?_⟩⟩
    · intro f _ id r
      rw [mem_adaptiveContrib, mem_normalContrib]
      tauto
    · intro f _ hwf id r hmem
      exact adaptive_rank_le_cap _ _ id r hwf hmem
    · intro p hp
      have hp' : p ∈ accumScores
          (queryContribsAdaptive files k q' (adaptiveCap files q')) :=
        (sortDescScores_perm _).mem_iff.mp hp
      have := lookupScore_of_mem_nodup _ p.1 p.2 (nodup_keys_accumScores _)
        (by simpa using hp')
      rw [← this, lookupScore_queryContribsAdaptive]
    · intro id
      rw [((sortDescScores_perm _).map (·.1)).mem_iff, mem_keys_accumScores,
        mem_keys_queryContribsAdaptive]
    · exact ((sortDescScores_perm _).map (·.1)).nodup_iff.mpr
        (nodup_keys_accumScores _)
    · rw [adaptiveRowFor, if_pos hcond]

/-- C5 witness: the amended adaptive-mode theorem applied to two concrete
well-formed files (leading counts `[2, 1]`, cap `= 2`). -/
theorem rrf_adaptive_mode_correct_witness :
    ((∃ f ∈ ([⟨[("Q1", [some "a", some "b"])]⟩,
          ⟨[("Q1", [some "b"])]⟩] : List SubmissionFile),
        queryArticleCount f "Q1" = 0) →
      (["b", "a"] : List String) = List.replicate 2 "#") ∧
    ((∀ f ∈ ([⟨[("Q1", [some "a", some "b"])]⟩,
          ⟨[("Q1", [some "b"])]⟩] : List SubmissionFile),
        0 < queryArticleCount f "Q1") →
      (∀ f ∈ ([⟨[("Q1", [some "a", some "b"])]⟩,
          ⟨[("Q1", [some "b"])]⟩] : List SubmissionFile), ∀ id r,
        ((id, r) ∈ adaptiveContrib (adaptiveCap
            [⟨[("Q1", [some "a", some "b"])]⟩, ⟨[("Q1", [some "b"])]⟩] "Q1")
            ((findRow f "Q1").getD []) ↔
          (id, r) ∈ normalContrib ((findRow f "Q1").getD []) ∧
            countValid (((findRow f "Q1").getD []).take (r - 1)) <
              adaptiveCap [⟨[("Q1", [some "a", some "b"])]⟩,
                ⟨[("Q1", [some "b"])]⟩] "Q1")) ∧
      (∀ f ∈ ([⟨[("Q1", [some "a", some "b"])]⟩,
          ⟨[("Q1", [some "b"])]⟩] : List SubmissionFile),
        wellFormedRow ((findRow f "Q1").getD []) = true →
        ∀ id r, (id, r) ∈ adaptiveContrib (adaptiveCap
            [⟨[("Q1", [some "a", some "b"])]⟩, ⟨[("Q1", [some "b"])]⟩] "Q1")
            ((findRow f "Q1").getD []) →
          r ≤ adaptiveCap [⟨[("Q1", [some "a", some "b"])]⟩,
            ⟨[("Q1", [some "b"])]⟩] "Q1") ∧
      ∃ ranked : List (String × ℚ),
        (∀ p ∈ ranked, p.2 = fusedScoreAdaptive
          [⟨[("Q1", [some "a", some "b"])]⟩, ⟨[("Q1", [some "b"])]⟩] 60 "Q1"
          (adaptiveCap [⟨[("Q1", [some "a", some "b"])]⟩,
            ⟨[("Q1", [some "b"])]⟩] "Q1") p.1) ∧
        (∀ id, id ∈ ranked.map (·.1) ↔
          ∃ f ∈ ([⟨[("Q1", [some "a", some "b"])]⟩,
              ⟨[("Q1", [some "b"])]⟩] : List SubmissionFile), ∃ r,
            (id, r) ∈ adaptiveContrib (adaptiveCap
              [⟨[("Q1", [some "a", some "b"])]⟩, ⟨[("Q1", [some "b"])]⟩] "Q1")
              ((findRow f "Q1").getD [])) ∧
        (ranked.map (·.1)).Nodup ∧
        ranked.Sorted scoreGe ∧
        (["b", "a"] : List String) = fillRow 2 (ranked.map (·.1))) :=
  rrf_adaptive_mode_correct
    [⟨[("Q1", [some "a", some "b"])]⟩, ⟨[("Q1", [some "b"])]⟩]
    60 2 "Q1" ["b", "a"] (by decide)

/-- C8: in cross-family aggregation, each ranked image's fused score is
the sum over families of `w_F/(k_mm + rank)` (or a voting term `w_F`) at
exactly its appearances within the first `final_top_k` entries of the
family's list, the ranked images are exactly those appearing in some
family's first `final_top_k`, and the output is the top `final_top_k` by
descending fused score. -/
theorem multi_model_rrf_top_k_correct (k_mm : ℚ)
    (family_results : List (String × FamilyResults)) (final_top_k : ℕ)
    (voting : Bool) (q : String) (out : List String)
    (hrow : (q, out) ∈ multi_model_rrf k_mm family_results final_top_k voting) :
    ∃ ranked : List (String × ℚ),
      (∀ p ∈ ranked,
        p.2 = fusedFamilyScore family_results k_mm voting final_top_k q p.1) ∧
      (∀ img, img ∈ ranked.map (·.1) ↔
        ∃ fd ∈ family_results, ∃ j, j + 1 ≤ final_top_k ∧
          ((fd.2.results.lookup q).getD []).get? j = some img) ∧
      (ranked.map (·.1)).Nodup ∧
      ranked.Sorted scoreGe ∧
      out = (ranked.map (·.1)).take final_top_k := by
  rcases List.mem_map.mp hrow with ⟨q', _, heq⟩
  have h1 : q' = q := congrArg Prod.fst heq
  subst h1
  have h2 : ((sortDescScores (accumScores (family_results.flatMap (fun fd =>
      familyRankContribs fd.2.weight k_mm voting final_top_k 1
        ((fd.2.results.lookup q').getD []))))).map (·.1)).take final_top_k =
      out := congrArg Prod.snd heq
  subst h2
  refine ⟨sortDescScores (accumScores (family_results.flatMap (fun fd =>
    familyRankContribs fd.2.weight k_mm voting final_top_k 1
      ((fd.2.results.lookup q').getD [])))), ?_, ?_, ?_,
    sortDescScores_sorted _, rfl⟩
  · intro p hp
    have hp' := (sortDescScores_perm _).mem_iff.mp hp
    have := lookupScore_of_mem_nodup _ p.1 p.2 (nodup_keys_accumScores _)
      (by simpa using hp')
    rw [← this, lookupScore_familyContribs]
  · intro img
    rw [((sortDescScores_perm _).map (·.1)).mem_iff, mem_keys_accumScores,
      mem_keys_familyFlatMap]
  · exact ((sortDescScores_perm _).map (·.1)).nodup_iff.mpr
      (nodup_keys_accumScores _)

/-- C8 witness: the cross-family theorem applied to two concrete families
with weights 1 and 1/2. -/
theorem multi_model_rrf_top_k_witness :
    ∃ ranked : List (String × ℚ),
      (∀ p ∈ ranked, p.2 = fusedFamilyScore
        [("F1", ⟨[("Q1", ["i1", "i2"])], 1⟩),
         ("F2", ⟨[("Q1", ["i2"])], 1/2⟩)] 50 false 2 "Q1" p.1) ∧
      (∀ img, img ∈ ranked.map (·.1) ↔
        ∃ fd ∈ ([("F1", ⟨[("Q1", ["i1", "i2"])], 1⟩),
            ("F2", ⟨[("Q1", ["i2"])], 1/2⟩)] :
            List (String × FamilyResults)), ∃ j, j + 1 ≤ 2 ∧
          ((fd.2.results.lookup "Q1").getD []).get? j = some img) ∧
      (ranked.map (·.1)).Nodup ∧
      ranked.Sorted scoreGe ∧
      (["i2", "i1"] : List String) = (ranked.map (·.1)).take 2 :=
  multi_model_rrf_top_k_correct 50
    [("F1", ⟨[("Q1", ["i1", "i2"])], 1⟩), ("F2", ⟨[("Q1", ["i2"])], 1/2⟩)]
    2 false "Q1" ["i2", "i1"] (by decide)

/-- C6: in sigmoid mode, a similarity below 0.5 gets boost 0 and the final
per-image score equals the similarity, for every exp/log behaviour, every
parameter configuration and every article rank `≥ 1`. -/
theorem sigmoid_floor_zero_boost (mexp mlog : ℚ → ℚ) (cfg : SigmoidConfig)
    (s : ℚ) (r : ℕ) (hmode : cfg.use_sigmoid_boosting = true)
    (hr : 1 ≤ r) (hs : s < 1 / 2) :
    calculate_sigmoid_boost mexp mlog cfg s r = 0 ∧
    boostedFinalScore mexp mlog cfg s r = s := by
  have hb : calculate_sigmoid_boost mexp mlog cfg s r = 0 := by
    rw [calculate_sigmoid_boost, if_neg (by simp [hmode]), if_pos hs]
  exact ⟨hb, by rw [boostedFinalScore, hb, add_zero]⟩

/-- C6 witness: the floor theorem at `s = 2/5` with the tuned default
parameters and identity transcendentals. -/
theorem sigmoid_floor_zero_boost_witness :
    calculate_sigmoid_boost id id
      (SigmoidConfig.mk true (3/10) 10 (5/2) 0 (1/2)) (2/5) 1 = 0 ∧
    boostedFinalScore id id
      (SigmoidConfig.mk true (3/10) 10 (5/2) 0 (1/2)) (2/5) 1 = 2/5 :=
  sigmoid_floor_zero_boost id id
    (SigmoidConfig.mk true (3/10) 10 (5/2) 0 (1/2)) (2/5) 1
    rfl (by decide) (by decide)

/-- C7: a view collection whose active weight is 0 is skipped by the
view aggregator (erasing its entries changes nothing), and a family whose
weight is 0 is filtered out before the pipeline runs (erasing it from the
configuration changes nothing). -/
theorem zero_weight_excluded_from_fusion
    (active_weights : List (String × ℚ)) (rrf_k : ℚ) (useVoting : Bool)
    (c₀ : String)
    (search_results : List (String × List (String × List ImageResult)))
    (getEmb : String → String → Option (List ℚ))
    (searchB : String → List ℚ → List String → List (String × ℕ) → ℕ →
      List ImageResult)
    (searchNF : String → List ℚ → ℕ → List ImageResult)
    (fams : List (String × FamilyConfig)) (f₀ : String × FamilyConfig)
    (model_weights : List (String × ℚ)) (k_mm : ℚ)
    (a2i stage1 : List (String × List String))
    (max_articles direct_search_top_k final_top_k : ℕ)
    (hw : (active_weights.lookup c₀).getD 0 = 0)
    (hwf : f₀.2.family_weight = 0) :
    aggregate_final_collections active_weights rrf_k useVoting search_results =
      aggregate_final_collections active_weights rrf_k useVoting
        (search_results.map (fun qr =>
          (qr.1, qr.2.filter (fun cr => !(cr.1 == c₀))))) ∧
    multi_model_image_search_pipeline getEmb searchB searchNF fams
      model_weights rrf_k k_mm useVoting a2i stage1 max_articles
      direct_search_top_k final_top_k =
    multi_model_image_search_pipeline getEmb searchB searchNF (fams.erase f₀)
      model_weights rrf_k k_mm useVoting a2i stage1 max_articles
      direct_search_top_k final_top_k :=
  ⟨aggregate_skip_zero_view active_weights rrf_k useVoting c₀ hw
      search_results,
   pipeline_erase_zero_family getEmb searchB searchNF fams f₀ model_weights
     rrf_k k_mm useVoting a2i stage1 max_articles direct_search_top_k
     final_top_k hwf⟩

/-- C7 witness: the exclusion theorem at a concrete configuration with a
0-weight view `c0` and a 0-weight family `F0`. -/
theorem zero_weight_excluded_witness :
    aggregate_final_collections [("c0", 0), ("c1", 1)] 60 false
      [("q1", [("c0", [ImageResult.mk "img0" 1]),
               ("c1", [ImageResult.mk "img1" (1/2)])])] =
      aggregate_final_collections [("c0", 0), ("c1", 1)] 60 false
        ([("q1", [("c0", [ImageResult.mk "img0" 1]),
                  ("c1", [ImageResult.mk "img1" (1/2)])])].map (fun qr =>
          (qr.1, qr.2.filter (fun cr => !(cr.1 == "c0"))))) ∧
    multi_model_image_search_pipeline (fun _ _ => none)
      (fun _ _ _ _ _ => []) (fun _ _ _ => [])
      [("F1", FamilyConfig.mk ["c1"] "db" 1),
       ("F0", FamilyConfig.mk ["c0"] "db" 0)]
      [("c0", 0), ("c1", 1)] 60 50 false [("a1", ["img1"])]
      [("q1", ["a1"])] 15 20 15 =
    multi_model_image_search_pipeline (fun _ _ => none)
      (fun _ _ _ _ _ => []) (fun _ _ _ => [])
      ([("F1", FamilyConfig.mk ["c1"] "db" 1),
        ("F0", FamilyConfig.mk ["c0"] "db" 0)].erase
        ("F0", FamilyConfig.mk ["c0"] "db" 0))
      [("c0", 0), ("c1", 1)] 60 50 false [("a1", ["img1"])]
      [("q1", ["a1"])] 15 20 15 :=
  zero_weight_excluded_from_fusion [("c0", 0), ("c1", 1)] 60 false "c0"
    [("q1", [("c0", [ImageResult.mk "img0" 1]),
             ("c1", [ImageResult.mk "img1" (1/2)])])]
    (fun _ _ => none) (fun _ _ _ _ _ => []) (fun _ _ _ => [])
    [("F1", FamilyConfig.mk ["c1"] "db" 1),
     ("F0", FamilyConfig.mk ["c0"] "db" 0)]
    ("F0", FamilyConfig.mk ["c0"] "db" 0)
    [("c0", 0), ("c1", 1)] 50 [("a1", ["img1"])] [("q1", ["a1"])] 15 20 15
    (by decide) rfl

/-- C9: the entity-weighted article search returns the empty list — and
cannot raise — on an empty entity list, on entities that all strip to
empty text, on a transport error, and on any non-200 response. -/
theorem entity_search_failures_yield_empty
    (weights : List (String × ℚ)) (entities : List QEntity)
    (outcome : EsOutcome) :
    (entities = [] → search_articles_for_query weights entities outcome = []) ∧
    ((∀ e ∈ entities, pyStrip e.text = "") →
      search_articles_for_query weights entities outcome = []) ∧
    (outcome = EsOutcome.transportError →
      search_articles_for_query weights entities outcome = []) ∧
    (∀ status hits, outcome = EsOutcome.response status hits → status ≠ 200 →
      search_articles_for_query weights entities outcome = []) := by
  refine ⟨?_, ?_, ?_, ?_⟩
  · rintro rfl
    rfl
  · intro hempty
    by_cases he : entities = []
    · subst he
      rfl
    · have hsq : buildShouldQueries weights entities = [] := by
        rw [buildShouldQueries, List.flatMap_eq_nil_iff]
        intro e he'
        simp [hempty e he']
      simp [search_articles_for_query, he, hsq]
  · rintro rfl
    rw [search_articles_for_query]
    split_ifs <;> rfl
  · rintro status hits rfl hstat
    rw [search_articles_for_query]
    split_ifs <;> simp [hstat]

/-- C1 (the code at the failing input): in the legacy configuration the
query-view collection names start with `"Query_"`, so the
`startswith("Query-")` filter of the no-article branch never removes
them.  For a query without stage-1 articles, `Query_Initialized_Large`
is still searched, and its aggregation weight is 1, not 0. -/
theorem query_view_searched_without_articles :
    strHasPrefix "Query-" "Query_Initialized_Large" = false ∧
    (activeWeightsMulti
      (activeFamilies (buildLegacyFamilies "Initialized" true 1 (9/10)
        (8/10) false))
      (buildLegacyModelWeights "Initialized" true 1 1 (12/10) (9/10) (9/10)
        (11/10) (8/10) (8/10) 1 false)).lookup "Query_Initialized_Large" =
      some 1 ∧
    (∀ (getEmb : String → String → Option (List ℚ))
       (searchNF : String → List ℚ → ℕ → List ImageResult),
      (((search_queries_without_articles getEmb searchNF
          ["Query_Initialized_Large", "Summary_Initialized_Large",
           "Concise_Initialized_Large"]
          "Database_Initialized_Large"
          (activeFamilies (buildLegacyFamilies "Initialized" true 1 (9/10)
            (8/10) false))
          ["q0"] 20).lookup "q0").getD []).map (·.1) =
        ["Query_Initialized_Large", "Summary_Initialized_Large",
         "Concise_Initialized_Large"]) :=
  ⟨by decide, by decide, fun _ _ => rfl⟩

/-- C2 (the code at the failing input): the stage-2 writer emits a header
declaring 10 `image_id_*` columns but pads every data row to 50 cells
after `query_id` (all empty slots `"#"`), so the row width does not match
the declared width. -/
theorem track2_header_row_width_mismatch :
    trackHeader.length = 1 + 10 ∧
    (trackRow "q" []).length = 1 + 50 ∧
    save_final_image_results [("q", [])] = [trackHeader, trackRow "q" []] ∧
    trackRow "q" [] = "q" :: List.replicate 50 "#" ∧
    (10 : ℕ) ≠ 50 :=
  ⟨by decide, by decide, by decide, by decide, by decide⟩

/-- C3 (the code at the failing input): query `q1` has the stage-1
article `a1`, but `a1` maps to no images, so `search_queries_with_articles`
drops `q1` (`continue` on an empty candidate set) and the final stage-2
CSV contains no row for it — only the header — whatever the vector store
returns. -/
theorem empty_candidate_query_dropped :
    ∀ (getEmb : String → String → Option (List ℚ))
      (searchB : String → List ℚ → List String → List (String × ℕ) → ℕ →
        List ImageResult)
      (searchNF : String → List ℚ → ℕ → List ImageResult),
      ("q1", ["a1"]) ∈ classifyQueries [("q1", ["a1"])] 15 ∧
      save_final_image_results
        (multi_model_image_search_pipeline getEmb searchB searchNF
          (buildLegacyFamilies "Initialized" true 1 (9/10) (8/10) false)
          (buildLegacyModelWeights "Initialized" true 1 1 (12/10) (9/10)
            (9/10) (11/10) (8/10) (8/10) 1 false)
          60 50 false [("a1", [])] [("q1", ["a1"])] 15 20 15) =
        [trackHeader] :=
  fun _ _ _ => ⟨by decide, rfl⟩
